import Mathlib

/-!
Verification of the counting barrier in src/barrier.js.

The barrier holds an integer counter `value` and a JS array `waiting` of
queued continuations.  `wait` inserts at the front of the array
(`Array.prototype.unshift`) and the drain loop in `release` removes from
the back (`Array.prototype.pop`), invoking each continuation while the
barrier is clear.  Continuations may re-enter the barrier, so we embed
them as programs over the barrier operations and interpret with fuel.
-/

namespace BarrierJs

/-- Errors thrown by the JS code: `RangeError("Invalid Argument")`,
`Error("Barrier not set.")`, plus a fuel marker for the interpreter. -/
inductive JsErr where
  | invalidArg : JsErr
  | notSet : JsErr
  | outOfFuel : JsErr
deriving DecidableEq, Repr

/-- A continuation body: a finite sequence of barrier calls.  `aquire`
and `release` carry `none` for a call with no argument (JS
`arguments.length === 0`) and `some n` for an explicit argument.
`wait args body rest` registers a callback whose argument list is
`args` and whose behaviour once invoked is `body`. -/
inductive Prog where
  | nil : Prog
  | aquire : Option Int → Prog → Prog
  | release : Option Int → Prog → Prog
  | wait : List Int → Prog → Prog → Prog
deriving DecidableEq, Repr

/-- An entry of the `waiting` array: the JS object
`{args: args, callback: fn}`, tagged with a serial number `id` assigned
at the `wait` call so that individual invocations can be tracked. -/
structure Waiter where
  id : Nat
  args : List Int
  body : Prog
deriving DecidableEq, Repr

/-- The barrier state.  `waiting` lists the JS array in index order
(head = array index 0, the end `unshift` inserts at; the drain `pop`s
from the tail).  `nextId` is the next fresh serial for a `wait` call and
`log` records invoked continuations as `(id, args)` pairs in
chronological order. -/
structure BState where
  value : Int
  waiting : List Waiter
  nextId : Nat
  log : List (Nat × List Int)
deriving DecidableEq, Repr

/-- `isSet`: `return this.value > 0`. -/
def isSet (s : BState) : Bool := decide (s.value > 0)

/-- The guard of the explicit-argument branch of `release`:
`this.value >= n > 0`.  JS relational operators associate left, so this
is `(this.value >= n) > 0` with the boolean coerced to 1 or 0 — not the
chained comparison the author intended. -/
def releaseGuard (v n : Int) : Bool :=
  decide ((if v ≥ n then (1 : Int) else 0) > 0)

/-- The `aquire` method.  Returns the updated state, the thrown error if
any, and the value returned by the JS function (`return this.value`),
`none` when it throws. -/
def aquireCall (n? : Option Int) (s : BState) :
    (BState × Option JsErr) × Option Int :=
  match n? with
  | none => (({ s with value := s.value + 1 }, none), some (s.value + 1))
  | some n =>
    if n ≥ 0 then
      (({ s with value := s.value + n }, none), some (s.value + n))
    else
      ((s, some JsErr.invalidArg), none)

/-- The constructor `Barrier(n)`: throws `RangeError` when `n < 0`;
otherwise `this.value = n || 0` and `this.waiting = []`.  With no
argument `undefined < 0` is false and `undefined || 0` is `0`. -/
def barrierNew (n? : Option Int) : Except JsErr BState :=
  match n? with
  | none => Except.ok ⟨0, [], 0, []⟩
  | some n =>
    if n < 0 then Except.error JsErr.invalidArg else Except.ok ⟨n, [], 0, []⟩

mutual

/-- Run a sequence of barrier calls.  Each call consumes one unit of
fuel; an error aborts the rest of the sequence and propagates together
with the state at the point of the throw. -/
def execProg : Nat → Prog → BState → BState × Option JsErr
  | _, Prog.nil, s => (s, none)
  | 0, Prog.aquire _ _, s => (s, some JsErr.outOfFuel)
  | 0, Prog.release _ _, s => (s, some JsErr.outOfFuel)
  | 0, Prog.wait _ _ _, s => (s, some JsErr.outOfFuel)
  | f + 1, Prog.aquire n? rest, s =>
    match (aquireCall n? s).1 with
    | (s1, none) => execProg f rest s1
    | (s1, some e) => (s1, some e)
  | f + 1, Prog.release n? rest, s =>
    if isSet s then
      match n? with
      | none =>
        match drain f { s with value := s.value - 1 } with
        | (s2, none) => execProg f rest s2
        | (s2, some e) => (s2, some e)
      | some n =>
        if releaseGuard s.value n then
          match drain f { s with value := s.value - n } with
          | (s2, none) => execProg f rest s2
          | (s2, some e) => (s2, some e)
        else (s, some JsErr.invalidArg)
    else (s, some JsErr.notSet)
  | f + 1, Prog.wait args body rest, s =>
    if isSet s then
      execProg f rest
        { s with
          waiting := ⟨s.nextId, args, body⟩ :: s.waiting,
          nextId := s.nextId + 1 }
    else
      match execProg f body
          { s with
            log := s.log ++ [(s.nextId, args)],
            nextId := s.nextId + 1 } with
      | (s1, none) => execProg f rest s1
      | (s1, some e) => (s1, some e)
termination_by structural f _ _ => f

/-- The drain loop at the end of `release`:
`while (!this.isSet() && this.waiting.length > 0) { cb = this.waiting.pop(); cb.callback.apply(null, cb.args); }`.
`pop` removes the entry at the back of the array; invoking the callback
logs `(id, args)` and then runs its body, which may mutate the live
queue before the loop condition is re-checked. -/
def drain : Nat → BState → BState × Option JsErr
  | 0, s => (s, some JsErr.outOfFuel)
  | f + 1, s =>
    if isSet s then (s, none)
    else
      match s.waiting.getLast? with
      | none => (s, none)
      | some w =>
        match execProg f w.body
            { s with
              waiting := s.waiting.dropLast,
              log := s.log ++ [(w.id, w.args)] } with
        | (s1, none) => drain f s1
        | (s1, some e) => (s1, some e)
termination_by structural f _ => f

end

theorem isSet_iff (s : BState) : isSet s = true ↔ 0 < s.value := by
  simp [isSet]

theorem isSet_false_iff (s : BState) : isSet s = false ↔ s.value ≤ 0 := by
  simp [isSet]

theorem releaseGuard_iff (v n : Int) : releaseGuard v n = true ↔ n ≤ v := by
  by_cases h : v ≥ n <;> simp [releaseGuard, h]

/-- A barrier constructed with `new Barrier(1)`: count 1, nothing queued. -/
def bar1 : BState := ⟨1, [], 0, []⟩

/-- Register waiter W1 (argument list `[1]`) then W2 (argument list
`[2]`), both with pure bodies, then `release()` once. -/
def progFifo : Prog :=
  Prog.wait [1] Prog.nil (Prog.wait [2] Prog.nil (Prog.release none Prog.nil))

/-- Same, but W1's body calls `aquire()` when invoked. -/
def progHalt : Prog :=
  Prog.wait [1] (Prog.aquire none Prog.nil)
    (Prog.wait [2] Prog.nil (Prog.release none Prog.nil))

/-- Claim C8: constructing with `n ≥ 0` yields `value = n`, an empty
waiting queue and `isSet() == (n > 0)`; constructing with `n < 0` raises
an invalid-argument error; with no argument the count defaults to 0. -/
theorem C8_construct (n : Int) :
    (0 ≤ n → barrierNew (some n) = Except.ok ⟨n, [], 0, []⟩ ∧
      isSet ⟨n, [], 0, []⟩ = decide (0 < n)) ∧
    (n < 0 → barrierNew (some n) = Except.error JsErr.invalidArg) ∧
    barrierNew none = Except.ok ⟨0, [], 0, []⟩ := by
  refine ⟨fun h => ⟨?_, ?_⟩, fun h => ?_, rfl⟩
  · simp [barrierNew]; omega
  · simp [isSet]
  · simp [barrierNew, h]

/-- Claim C8 witness at `n = 2` and `n = -1`. -/
theorem C8_construct_witness :
    (0 ≤ (2 : Int) ∧ barrierNew (some 2) = Except.ok ⟨2, [], 0, []⟩ ∧
      isSet ⟨2, [], 0, []⟩ = decide ((0 : Int) < 2)) ∧
    ((-1 : Int) < 0 ∧ barrierNew (some (-1)) = Except.error JsErr.invalidArg) :=
  ⟨⟨by decide, (C8_construct 2).1 (by decide)⟩,
   ⟨by decide, (C8_construct (-1)).2.1 (by decide)⟩⟩

/-- Claim C6: `aquire()` increments the count by 1; `aquire(m)` with
`m ≥ 0` (including 0) increments by `m`; `aquire(m)` with `m < 0`
throws an invalid-argument error and leaves the state unchanged; on
success the method returns the new counter value. -/
theorem C6_aquire (s : BState) (m : Int) :
    aquireCall none s =
      (({ s with value := s.value + 1 }, none), some (s.value + 1)) ∧
    (0 ≤ m → aquireCall (some m) s =
      (({ s with value := s.value + m }, none), some (s.value + m))) ∧
    (m < 0 → aquireCall (some m) s = ((s, some JsErr.invalidArg), none)) := by
  refine ⟨rfl, fun h => ?_, fun h => ?_⟩
  · simp [aquireCall]; omega
  · simp [aquireCall]; omega

/-- Claim C6 witness at count 0 with `m = 2` and `m = -1`. -/
theorem C6_aquire_witness :
    (0 ≤ (2 : Int) ∧ aquireCall (some 2) ⟨0, [], 0, []⟩ =
      ((⟨2, [], 0, []⟩, none), some 2)) ∧
    ((-1 : Int) < 0 ∧ aquireCall (some (-1)) ⟨0, [], 0, []⟩ =
      ((⟨0, [], 0, []⟩, some JsErr.invalidArg), none)) :=
  ⟨⟨by decide, (C6_aquire ⟨0, [], 0, []⟩ 2).2.1 (by decide)⟩,
   ⟨by decide, (C6_aquire ⟨0, [], 0, []⟩ (-1)).2.2 (by decide)⟩⟩

/-- Claim C4: `wait(fn, args)` on a set barrier (`value > 0`) enqueues
`{fn, args}` at the front of the array without invoking anything (the
log is unchanged); on a clear barrier (`value == 0`) it invokes `fn`
synchronously with `args` — the log records the invocation and the
waiting queue is untouched — and then behaves as the body does. -/
theorem C4_wait (f : Nat) (args : List Int) (body : Prog) (s : BState) :
    (0 < s.value →
      execProg (f + 1) (Prog.wait args body Prog.nil) s =
        ({ s with waiting := ⟨s.nextId, args, body⟩ :: s.waiting,
                  nextId := s.nextId + 1 }, none)) ∧
    (s.value = 0 →
      execProg (f + 1) (Prog.wait args body Prog.nil) s =
        execProg f body
          { s with log := s.log ++ [(s.nextId, args)],
                   nextId := s.nextId + 1 }) := by
  constructor
  · intro h
    have hs : isSet s = true := (isSet_iff s).2 h
    simp [execProg, hs]
  · intro h
    have hs : isSet s = false := (isSet_false_iff s).2 (le_of_eq h)
    simp only [execProg, hs, Bool.false_eq_true, if_false]
    rcases hb : execProg f body
        { s with log := s.log ++ [(s.nextId, args)],
                 nextId := s.nextId + 1 } with ⟨s1, e⟩
    cases e <;> simp [execProg]

/-- Claim C4 witness: enqueue at count 1, immediate run at count 0. -/
theorem C4_wait_witness :
    (0 < (bar1).value ∧
      execProg 3 (Prog.wait [7] Prog.nil Prog.nil) bar1 =
        (⟨1, [⟨0, [7], Prog.nil⟩], 1, []⟩, none)) ∧
    ((⟨0, [], 0, []⟩ : BState).value = 0 ∧
      execProg 3 (Prog.wait [7] Prog.nil Prog.nil) ⟨0, [], 0, []⟩ =
        (⟨0, [], 1, [(0, [7])]⟩, none)) :=
  ⟨⟨by decide, (C4_wait 2 [7] Prog.nil bar1).1 (by decide)⟩,
   ⟨by decide, (C4_wait 2 [7] Prog.nil ⟨0, [], 0, []⟩).2 (by decide)⟩⟩

theorem exec_nil (f : Nat) (s : BState) : execProg f Prog.nil s = (s, none) := by
  cases f <;> rfl

theorem match_drain_nil (g : Nat) (t : BState) :
    (match drain g t with
      | (s2, none) => (s2, none)
      | (s2, some e) => (s2, some e)) = drain g t := by
  rcases drain g t with ⟨s2, e⟩
  cases e <;> rfl

/-- `release()` with no argument on a set barrier decrements the counter
and then runs the drain loop. -/
theorem release_noArg_eq (f : Nat) (s : BState) (h : 0 < s.value) :
    execProg (f + 1) (Prog.release none Prog.nil) s =
      drain f { s with value := s.value - 1 } := by
  have hs : isSet s = true := (isSet_iff s).2 h
  simp only [execProg, hs, if_true]
  exact match_drain_nil f _

/-- Claim C5: `release` (with or without an argument) on a clear barrier
(`value == 0`) raises the invalid-state "not set" error; `release()`
with no argument on a set barrier decrements the counter to `c - 1` and
then drains; with nothing queued the resulting count is exactly
`c - 1`. -/
theorem C5_release (f : Nat) (n? : Option Int) (s : BState) :
    (s.value = 0 →
      execProg (f + 1) (Prog.release n? Prog.nil) s = (s, some JsErr.notSet)) ∧
    (0 < s.value →
      execProg (f + 1) (Prog.release none Prog.nil) s =
        drain f { s with value := s.value - 1 }) ∧
    (0 < s.value → s.waiting = [] →
      execProg (f + 2) (Prog.release none Prog.nil) s =
        ({ s with value := s.value - 1 }, none)) := by
  refine ⟨fun h => ?_, fun h => release_noArg_eq f s h, fun h hw => ?_⟩
  · have hs : isSet s = false := (isSet_false_iff s).2 (le_of_eq h)
    simp [execProg, hs]
  · rw [release_noArg_eq (f + 1) s h]
    by_cases h2 : isSet { s with value := s.value - 1 } = true <;>
      simp [drain, h2, hw]

/-- Claim C5 witness: release at count 0 throws; release at count 2
with nothing queued yields count 1. -/
theorem C5_release_witness :
    ((⟨0, [], 0, []⟩ : BState).value = 0 ∧
      execProg 3 (Prog.release none Prog.nil) ⟨0, [], 0, []⟩ =
        (⟨0, [], 0, []⟩, some JsErr.notSet)) ∧
    (0 < (⟨2, [], 0, []⟩ : BState).value ∧ (⟨2, [], 0, []⟩ : BState).waiting = [] ∧
      execProg 4 (Prog.release none Prog.nil) ⟨2, [], 0, []⟩ =
        (⟨1, [], 0, []⟩, none)) :=
  ⟨⟨by decide, (C5_release 2 none ⟨0, [], 0, []⟩).1 (by decide)⟩,
   ⟨by decide, by decide,
    (C5_release 2 none ⟨2, [], 0, []⟩).2.2 (by decide) (by decide)⟩⟩

/-- Claim C2 (code bug): the guard `this.value >= n > 0` associates as
`(this.value >= n) > 0`, so the strict-positivity half is never
enforced.  On a barrier with count 1, `release(0)` succeeds as a no-op
and `release(-1)` succeeds and INCREASES the count to 2, although the
method's own doc comment (`Throws: Error if n <= 0 ...`) demands an
invalid-argument error for both. -/
theorem C2_code_eval :
    execProg 5 (Prog.release (some 0) Prog.nil) bar1 = (bar1, none) ∧
    execProg 5 (Prog.release (some (-1)) Prog.nil) bar1 =
      (⟨2, [], 0, []⟩, none) ∧
    releaseGuard 1 0 = true ∧ releaseGuard 1 (-1) = true := by decide

/-- Claim C1 counterexample: with the barrier at count 1 and waiters W1
(serial 0, argument list `[1]`) then W2 (serial 1, argument list `[2]`)
registered via `wait`, a single `release()` invokes W1 before W2: the
invocation log is `[(0, [1]), (1, [2])]` and not the
`[(1, [2]), (0, [1])]` that last-registered-first order predicts. -/
theorem C1_counterexample :
    (execProg 10 progFifo bar1).1.log = [(0, [1]), (1, [2])] ∧
    (execProg 10 progFifo bar1).1.log ≠ [(1, [2]), (0, [1])] := by decide

/-- Draining a clear barrier whose queued bodies are all pure pops the
array from the back, so continuations run in first-registered order:
the log gains `l.reverse`, the reflection of the array. -/
theorem drain_pure (l : List Waiter) :
    ∀ (f : Nat) (v : Int) (nid : Nat) (lg : List (Nat × List Int)),
      v ≤ 0 → (∀ w ∈ l, w.body = Prog.nil) → l.length < f →
      drain f ⟨v, l, nid, lg⟩ =
        (⟨v, [], nid, lg ++ l.reverse.map (fun w => (w.id, w.args))⟩, none) := by
  induction l using List.reverseRecOn with
  | nil =>
    intro f v nid lg hv _ hf
    obtain ⟨g, rfl⟩ : ∃ g, f = g + 1 := ⟨f - 1, by omega⟩
    have hs : isSet ⟨v, [], nid, lg⟩ = false := (isSet_false_iff _).2 hv
    simp [drain, hs]
  | append_singleton front w ih =>
    intro f v nid lg hv hb hf
    obtain ⟨g, rfl⟩ : ∃ g, f = g + 1 := ⟨f - 1, by omega⟩
    have hs : isSet ⟨v, front ++ [w], nid, lg⟩ = false := (isSet_false_iff _).2 hv
    have hwb : w.body = Prog.nil := hb w (by simp)
    have hlen : front.length < g := by
      simp only [List.length_append, List.length_cons] at hf
      omega
    have hih := ih g v nid (lg ++ [(w.id, w.args)]) hv
      (fun x hx => hb x (by simp [hx])) hlen
    simp only [drain, hs, Bool.false_eq_true, if_false, List.getLast?_concat,
      List.dropLast_concat, hwb, exec_nil, hih]
    simp [List.reverse_append]

/-- Claim C1 (amended): drain order is FIFO, not LIFO — whenever a
release brings the counter to 0 with (pure) continuations queued, they
are invoked least-recently-registered first; in particular with the
barrier at count 1, after registering W1 then W2 via `wait`, a single
`release()` invokes W1 before W2. -/
theorem C1_fifo_drain (f : Nat) (s : BState) :
    (s.value = 1 → (∀ w ∈ s.waiting, w.body = Prog.nil) →
      s.waiting.length < f →
      execProg (f + 1) (Prog.release none Prog.nil) s =
        (⟨0, [], s.nextId,
          s.log ++ s.waiting.reverse.map (fun w => (w.id, w.args))⟩, none)) ∧
    execProg 10 progFifo bar1 = (⟨0, [], 2, [(0, [1]), (1, [2])]⟩, none) := by
  refine ⟨fun h1 hb hf => ?_, by decide⟩
  obtain ⟨v, l, nid, lg⟩ := s
  simp only at h1
  subst h1
  rw [release_noArg_eq f _ (by norm_num)]
  have hd := drain_pure l f 0 nid lg (by norm_num) hb hf
  simpa using hd

/-- Claim C1 witness for the amended general statement: count 1, three
pure waiters drained in registration order. -/
theorem C1_fifo_drain_witness :
    ((⟨1, [⟨2, [30], Prog.nil⟩, ⟨1, [20], Prog.nil⟩, ⟨0, [10], Prog.nil⟩], 3,
        []⟩ : BState).value = 1 ∧
      execProg 5 (Prog.release none Prog.nil)
        ⟨1, [⟨2, [30], Prog.nil⟩, ⟨1, [20], Prog.nil⟩, ⟨0, [10], Prog.nil⟩], 3, []⟩ =
        (⟨0, [], 3, [(0, [10]), (1, [20]), (2, [30])]⟩, none)) :=
  ⟨by decide,
    by
      have := (C1_fifo_drain 4
        ⟨1, [⟨2, [30], Prog.nil⟩, ⟨1, [20], Prog.nil⟩, ⟨0, [10], Prog.nil⟩], 3,
          []⟩).1 (by decide) (by decide) (by decide)
      simpa using this⟩

/-- Claim C3: a re-entrant `aquire` halts the drain.  If the drain
invokes the earliest queued waiter `w` and `w`'s body leaves the barrier
set (`value > 0`), the drain returns at once: no further queued
continuation is invoked and the rest of the queue survives inside the
resulting state.  In the concrete scenario — count 1, waiters W1
(serial 0, body `aquire()`) then W2 (serial 1, pure) — one `release()`
invokes W1 only (log `[(0, [1])]`) and leaves W2 queued at count 1. -/
theorem C3_reentrant_halt (f : Nat) (s s2 : BState) (front : List Waiter)
    (w : Waiter) :
    (s.value ≤ 0 → s.waiting = front ++ [w] →
      execProg (f + 1) w.body
        { s with waiting := front, log := s.log ++ [(w.id, w.args)] } =
        (s2, none) →
      0 < s2.value →
      drain (f + 2) s = (s2, none)) ∧
    execProg 10 progHalt bar1 =
      (⟨1, [⟨1, [2], Prog.nil⟩], 2, [(0, [1])]⟩, none) := by
  refine ⟨fun hv hw hx h2 => ?_, by decide⟩
  have hs : isSet s = false := (isSet_false_iff s).2 hv
  have hs2 : isSet s2 = true := (isSet_iff s2).2 h2
  simp only [drain, hs, Bool.false_eq_true, if_false, hw, List.getLast?_concat,
    List.dropLast_concat]
  simp [hx, drain, hs2]

/-- Claim C3 witness: a single queued waiter whose body re-acquires. -/
theorem C3_reentrant_halt_witness :
    ((⟨0, [⟨0, [], Prog.aquire none Prog.nil⟩], 1, []⟩ : BState).value ≤ 0 ∧
      execProg 2 (Prog.aquire none Prog.nil) ⟨0, [], 1, [(0, [])]⟩ =
        (⟨1, [], 1, [(0, [])]⟩, none) ∧
      0 < (⟨1, [], 1, [(0, [])]⟩ : BState).value ∧
      drain 3 ⟨0, [⟨0, [], Prog.aquire none Prog.nil⟩], 1, []⟩ =
        (⟨1, [], 1, [(0, [])]⟩, none)) :=
  ⟨by decide, by decide, by decide,
    (C3_reentrant_halt 1 ⟨0, [⟨0, [], Prog.aquire none Prog.nil⟩], 1, []⟩
      ⟨1, [], 1, [(0, [])]⟩ [] ⟨0, [], Prog.aquire none Prog.nil⟩).1
      (by decide) (by decide) (by decide) (by decide)⟩

/-- Fuel-indexed simultaneous induction: `execProg` and `drain` preserve
non-negativity of the counter, whether they succeed or throw. -/
theorem value_nonneg_all (f : Nat) :
    (∀ (p : Prog) (s : BState), 0 ≤ s.value → 0 ≤ (execProg f p s).1.value) ∧
    (∀ s : BState, 0 ≤ s.value → 0 ≤ (drain f s).1.value) := by
  induction f with
  | zero =>
    constructor
    · intro p s h
      cases p <;> simpa [execProg]
    · intro s h
      simpa [drain]
  | succ f ih =>
    obtain ⟨ihE, ihD⟩ := ih
    constructor
    · intro p s h
      cases p with
      | nil => simpa [execProg]
      | aquire n? rest =>
        cases n? with
        | none =>
          simp only [execProg, aquireCall]
          exact ihE rest _ (by simp; omega)
        | some n =>
          by_cases hn : n ≥ 0
          · simp only [execProg, aquireCall, if_pos hn]
            exact ihE rest _ (by simp; omega)
          · simp only [execProg, aquireCall, if_neg hn]
            simpa
      | release n? rest =>
        by_cases hset : isSet s = true
        · have hv : 0 < s.value := (isSet_iff s).1 hset
          cases n? with
          | none =>
            simp only [execProg, hset, if_true]
            rcases hd : drain f { s with value := s.value - 1 } with ⟨s2, e⟩
            have h2 : 0 ≤ s2.value := by
              have := ihD { s with value := s.value - 1 } (by simp; omega)
              rwa [hd] at this
            cases e
            · simpa using ihE rest s2 h2
            · simpa using h2
          | some n =>
            by_cases hg : releaseGuard s.value n = true
            · have hn : n ≤ s.value := (releaseGuard_iff _ _).1 hg
              simp only [execProg, hset, if_true, hg]
              rcases hd : drain f { s with value := s.value - n } with ⟨s2, e⟩
              have h2 : 0 ≤ s2.value := by
                have := ihD { s with value := s.value - n } (by simp; omega)
                rwa [hd] at this
              cases e
              · simpa using ihE rest s2 h2
              · simpa using h2
            · have hg2 : releaseGuard s.value n = false := by
                simpa using hg
              simp only [execProg, hset, if_true, hg2]
              simpa
        · have hsf : isSet s = false := by simpa using hset
          simp only [execProg, hsf]
          simpa
      | wait args body rest =>
        by_cases hset : isSet s = true
        · simp only [execProg, hset, if_true]
          exact ihE rest _ (by simpa using h)
        · have hsf : isSet s = false := by simpa using hset
          simp only [execProg, hsf, Bool.false_eq_true, if_false]
          rcases hb : execProg f body
              { s with log := s.log ++ [(s.nextId, args)],
                       nextId := s.nextId + 1 } with ⟨s1, e⟩
          have h1 : 0 ≤ s1.value := by
            have := ihE body
              { s with log := s.log ++ [(s.nextId, args)],
                       nextId := s.nextId + 1 } (by simpa using h)
            rwa [hb] at this
          cases e
          · simpa using ihE rest s1 h1
          · simpa using h1
    · intro s h
      by_cases hset : isSet s = true
      · simpa [drain, hset] using h
      · have hsf : isSet s = false := by simpa using hset
        rcases hl : s.waiting.getLast? with _ | w
        · simpa [drain, hsf, hl] using h
        · simp only [drain, hsf, Bool.false_eq_true, if_false, hl]
          rcases hb : execProg f w.body
              { s with waiting := s.waiting.dropLast,
                       log := s.log ++ [(w.id, w.args)] } with ⟨s1, e⟩
          have h1 : 0 ≤ s1.value := by
            have := ihE w.body
              { s with waiting := s.waiting.dropLast,
                       log := s.log ++ [(w.id, w.args)] } (by simpa using h)
            rwa [hb] at this
          cases e
          · simpa using ihD s1 h1
          · simpa using h1

/-- Claim C7: the counter never goes negative.  Starting from any state
with `value ≥ 0` — in particular any successfully constructed barrier —
every sequence of `aquire`, `release` and `wait` calls (including calls
made re-entrantly by queued continuations) leaves `value ≥ 0`, whether
it completes or throws; and a `release(n)` whose range check fails
throws before mutating anything. -/
theorem C7_value_nonneg :
    (∀ (f : Nat) (p : Prog) (s : BState),
      0 ≤ s.value → 0 ≤ (execProg f p s).1.value) ∧
    (∀ (n? : Option Int) (s0 : BState), barrierNew n? = Except.ok s0 →
      ∀ (f : Nat) (p : Prog), 0 ≤ (execProg f p s0).1.value) ∧
    (∀ (f : Nat) (n : Int) (s : BState), 0 < s.value →
      releaseGuard s.value n = false →
      execProg (f + 1) (Prog.release (some n) Prog.nil) s =
        (s, some JsErr.invalidArg)) := by
  refine ⟨fun f p s h => (value_nonneg_all f).1 p s h,
    fun n? s0 h0 f p => ?_, fun f n s hv hg => ?_⟩
  · refine (value_nonneg_all f).1 p s0 ?_
    cases n? with
    | none =>
      simp only [barrierNew, Except.ok.injEq] at h0
      subst h0
      norm_num
    | some n =>
      by_cases hn : n < 0
      · simp [barrierNew, hn] at h0
      · simp only [barrierNew, if_neg hn, Except.ok.injEq] at h0
        subst h0
        simpa using hn
  · have hs : isSet s = true := (isSet_iff s).2 hv
    simp [execProg, hs, hg]

/-- Claim C7 witness: a mixed program from `new Barrier(1)` keeps the
count non-negative, and `release(5)` at count 1 throws untouched. -/
theorem C7_value_nonneg_witness :
    (barrierNew (some 1) = Except.ok bar1 ∧
      0 ≤ (execProg 10 progHalt bar1).1.value) ∧
    (0 < (bar1).value ∧ releaseGuard (bar1).value 5 = false ∧
      execProg 4 (Prog.release (some 5) Prog.nil) bar1 =
        (bar1, some JsErr.invalidArg)) :=
  ⟨⟨rfl, C7_value_nonneg.2.1 (some 1) bar1 rfl 10 progHalt⟩,
   ⟨by decide, by decide, C7_value_nonneg.2.2 3 5 bar1 (by decide) (by decide)⟩⟩

/-- Every serial number a state has seen: first the invoked ones (log
order), then the queued ones (array order). -/
def allIds (s : BState) : List Nat :=
  s.log.map Prod.fst ++ s.waiting.map Waiter.id

/-- Serial-number invariant: no serial appears twice across the log and
the waiting queue together, and every serial is below the fresh-serial
counter. -/
def idInv (s : BState) : Prop :=
  (allIds s).Nodup ∧ ∀ i ∈ allIds s, i < s.nextId

theorem idInv_value (s : BState) (x : Int) :
    idInv { s with value := x } ↔ idInv s := by
  simp [idInv, allIds]

theorem nodup_insert_fresh (a b : List Nat) (x : Nat)
    (h1 : (a ++ b).Nodup) (h2 : ∀ i ∈ a ++ b, i < x) :
    (a ++ x :: b).Nodup ∧ ∀ i ∈ a ++ x :: b, i < x + 1 := by
  have hp : (a ++ x :: b).Perm (x :: (a ++ b)) := List.perm_middle
  constructor
  · refine hp.nodup_iff.2 (List.nodup_cons.2 ⟨fun hx => ?_, h1⟩)
    exact absurd (h2 x hx) (lt_irrefl x)
  · intro i hi
    rcases List.mem_append.1 hi with hia | hib
    · exact Nat.lt_succ_of_lt (h2 i (List.mem_append.2 (Or.inl hia)))
    · rcases List.mem_cons.1 hib with rfl | hib2
      · exact Nat.lt_succ_self _
      · exact Nat.lt_succ_of_lt (h2 i (List.mem_append.2 (Or.inr hib2)))

theorem perm_pop (a b : List Nat) (x : Nat) :
    (a ++ (b ++ [x])).Perm ((a ++ [x]) ++ b) := by
  have h2 := (List.perm_append_singleton x b).append_left a
  simpa [List.append_assoc] using h2

/-- `wait` on a set barrier: the fresh serial is prepended to the queue
and the fresh counter bumped. -/
theorem idInv_enqueue (s : BState) (args : List Int) (body : Prog)
    (h : idInv s) :
    idInv { s with waiting := ⟨s.nextId, args, body⟩ :: s.waiting,
                   nextId := s.nextId + 1 } := by
  obtain ⟨h1, h2⟩ := h
  simp only [idInv, allIds] at h1 h2 ⊢
  simpa using nodup_insert_fresh _ _ _ h1 h2

/-- `wait` on a clear barrier: the fresh serial goes straight to the
log and the fresh counter is bumped. -/
theorem idInv_logIm (s : BState) (args : List Int) (h : idInv s) :
    idInv { s with log := s.log ++ [(s.nextId, args)],
                   nextId := s.nextId + 1 } := by
  obtain ⟨h1, h2⟩ := h
  simp only [idInv, allIds] at h1 h2 ⊢
  simpa [List.append_assoc] using nodup_insert_fresh _ _ _ h1 h2

/-- The drain pops the last queued waiter and logs it: the multiset of
serials is unchanged. -/
theorem idInv_pop (s : BState) (w : Waiter) (front : List Waiter)
    (hw : s.waiting = front ++ [w]) (h : idInv s) :
    idInv { s with waiting := front, log := s.log ++ [(w.id, w.args)] } := by
  obtain ⟨h1, h2⟩ := h
  have hp : (allIds s).Perm
      (allIds { s with waiting := front, log := s.log ++ [(w.id, w.args)] }) := by
    simp only [allIds, hw, List.map_append]
    simpa using perm_pop (s.log.map Prod.fst) (front.map Waiter.id) w.id
  refine ⟨hp.nodup_iff.1 h1, fun i hi => ?_⟩
  exact h2 i (hp.mem_iff.2 hi)

/-- Fuel-indexed simultaneous induction: `execProg` and `drain` preserve
the serial-number invariant. -/
theorem idInv_all (f : Nat) :
    (∀ (p : Prog) (s : BState), idInv s → idInv (execProg f p s).1) ∧
    (∀ s : BState, idInv s → idInv (drain f s).1) := by
  induction f with
  | zero =>
    constructor
    · intro p s h
      cases p <;> simpa [execProg]
    · intro s h
      simpa [drain]
  | succ f ih =>
    obtain ⟨ihE, ihD⟩ := ih
    constructor
    · intro p s h
      cases p with
      | nil => simpa [execProg]
      | aquire n? rest =>
        cases n? with
        | none =>
          simp only [execProg, aquireCall]
          exact ihE rest _ ((idInv_value s _).2 h)
        | some n =>
          by_cases hn : n ≥ 0
          · simp only [execProg, aquireCall, if_pos hn]
            exact ihE rest _ ((idInv_value s _).2 h)
          · simp only [execProg, aquireCall, if_neg hn]
            simpa
      | release n? rest =>
        by_cases hset : isSet s = true
        · cases n? with
          | none =>
            simp only [execProg, hset, if_true]
            rcases hd : drain f { s with value := s.value - 1 } with ⟨s2, e⟩
            have h2 : idInv s2 := by
              have := ihD { s with value := s.value - 1 }
                ((idInv_value s _).2 h)
              rwa [hd] at this
            cases e
            · simpa using ihE rest s2 h2
            · simpa using h2
          | some n =>
            by_cases hg : releaseGuard s.value n = true
            · simp only [execProg, hset, if_true, hg]
              rcases hd : drain f { s with value := s.value - n } with ⟨s2, e⟩
              have h2 : idInv s2 := by
                have := ihD { s with value := s.value - n }
                  ((idInv_value s _).2 h)
                rwa [hd] at this
              cases e
              · simpa using ihE rest s2 h2
              · simpa using h2
            · have hg2 : releaseGuard s.value n = false := by simpa using hg
              simp only [execProg, hset, if_true, hg2]
              simpa
        · have hsf : isSet s = false := by simpa using hset
          simp only [execProg, hsf]
          simpa
      | wait args body rest =>
        by_cases hset : isSet s = true
        · simp only [execProg, hset, if_true]
          exact ihE rest _ (idInv_enqueue s args body h)
        · have hsf : isSet s = false := by simpa using hset
          simp only [execProg, hsf, Bool.false_eq_true, if_false]
          rcases hb : execProg f body
              { s with log := s.log ++ [(s.nextId, args)],
                       nextId := s.nextId + 1 } with ⟨s1, e⟩
          have h1 : idInv s1 := by
            have := ihE body
              { s with log := s.log ++ [(s.nextId, args)],
                       nextId := s.nextId + 1 } (idInv_logIm s args h)
            rwa [hb] at this
          cases e
          · simpa using ihE rest s1 h1
          · simpa using h1
    · intro s h
      by_cases hset : isSet s = true
      · simpa [drain, hset] using h
      · have hsf : isSet s = false := by simpa using hset
        rcases hl : s.waiting.getLast? with _ | w
        · simpa [drain, hsf, hl] using h
        · have hw : s.waiting = s.waiting.dropLast ++ [w] :=
            (List.dropLast_append_getLast? w hl).symm
          simp only [drain, hsf, Bool.false_eq_true, if_false, hl]
          rcases hb : execProg f w.body
              { s with waiting := s.waiting.dropLast,
                       log := s.log ++ [(w.id, w.args)] } with ⟨s1, e⟩
          have h1 : idInv s1 := by
            have := ihE w.body
              { s with waiting := s.waiting.dropLast,
                       log := s.log ++ [(w.id, w.args)] }
              (idInv_pop s w s.waiting.dropLast hw h)
            rwa [hb] at this
          cases e
          · simpa using ihD s1 h1
          · simpa using h1

/-- Claim C10: at-most-once invocation.  A continuation is removed from
the queue before it is invoked, so across any execution from a freshly
constructed barrier no serial number is ever logged twice — no queued
continuation runs more than once, even under re-entrant releases. -/
theorem C10_at_most_once :
    (∀ (f : Nat) (p : Prog) (s : BState), idInv s → idInv (execProg f p s).1) ∧
    (∀ (n? : Option Int) (s0 : BState), barrierNew n? = Except.ok s0 →
      ∀ (f : Nat) (p : Prog),
        ((execProg f p s0).1.log.map Prod.fst).Nodup) := by
  constructor
  · exact fun f p s h => (idInv_all f).1 p s h
  · intro n? s0 h0 f p
    have h00 : idInv s0 := by
      cases n? with
      | none =>
        simp only [barrierNew, Except.ok.injEq] at h0
        subst h0
        exact ⟨by simp [allIds], by simp [allIds]⟩
      | some n =>
        by_cases hn : n < 0
        · simp [barrierNew, hn] at h0
        · simp only [barrierNew, if_neg hn, Except.ok.injEq] at h0
          subst h0
          exact ⟨by simp [allIds], by simp [allIds]⟩
    have hres := (idInv_all f).1 p s0 h00
    exact hres.1.of_append_left

/-- Claim C10 witness: the invariant holds after the re-entrant halt
scenario run from `new Barrier(1)`. -/
theorem C10_at_most_once_witness :
    (idInv bar1 ∧ idInv (execProg 10 progHalt bar1).1) ∧
    (barrierNew (some 1) = Except.ok bar1 ∧
      ((execProg 10 progFifo bar1).1.log.map Prod.fst).Nodup) :=
  ⟨⟨⟨by simp [allIds, bar1], by simp [allIds, bar1]⟩,
    C10_at_most_once.1 10 progHalt bar1
      ⟨by simp [allIds, bar1], by simp [allIds, bar1]⟩⟩,
   ⟨rfl, C10_at_most_once.2 (some 1) bar1 rfl 10 progFifo⟩⟩

/-- Claim C9 counterexample: with count 1 and one queued waiter whose
body calls `release()` on the (then clear) barrier, the outer
`release()` propagates the invalid-state error, yet the counter has
dropped from 1 to 0, the queue has been emptied and the waiter was
invoked — the call was not atomic. -/
theorem C9_counterexample :
    execProg 3 (Prog.release none Prog.nil)
      ⟨1, [⟨0, [], Prog.release none Prog.nil⟩], 1, []⟩ =
      (⟨0, [], 1, [(0, [])]⟩, some JsErr.notSet) ∧
    (⟨0, [], 1, [(0, [])]⟩ : BState) ≠
      ⟨1, [⟨0, [], Prog.release none Prog.nil⟩], 1, []⟩ := by
  decide

/-- Claim C9 (amended): `aquire` is atomic on error — the only error it
raises is invalid-argument and the state is returned unchanged.
`release` is atomic when the error comes from its own validation: the
not-set check and the argument range check both throw before any
mutation, leaving state and queue untouched and invoking nothing.  (An
error propagated out of a continuation during the drain may instead
leave the counter decremented and waiters already invoked.) -/
theorem C9_atomic_validation (f : Nat) (n : Int) (n? : Option Int)
    (s : BState) :
    (∀ (s1 : BState) (e : JsErr),
      execProg (f + 1) (Prog.aquire n? Prog.nil) s = (s1, some e) →
      s1 = s ∧ e = JsErr.invalidArg) ∧
    (s.value ≤ 0 →
      execProg (f + 1) (Prog.release n? Prog.nil) s = (s, some JsErr.notSet)) ∧
    (0 < s.value → releaseGuard s.value n = false →
      execProg (f + 1) (Prog.release (some n) Prog.nil) s =
        (s, some JsErr.invalidArg)) := by
  refine ⟨fun s1 e hx => ?_, fun hv => ?_, fun hv hg => ?_⟩
  · cases n? with
    | none =>
      simp [execProg, aquireCall, exec_nil] at hx
    | some m =>
      by_cases hm : m ≥ 0
      · simp [execProg, aquireCall, if_pos hm, exec_nil] at hx
      · simp only [execProg, aquireCall, if_neg hm, Prod.mk.injEq,
          Option.some.injEq] at hx
        exact ⟨hx.1.symm, hx.2.symm⟩
  · have hs : isSet s = false := (isSet_false_iff s).2 hv
    simp [execProg, hs]
  · have hs : isSet s = true := (isSet_iff s).2 hv
    simp [execProg, hs, hg]

/-- Claim C9 witness: `aquire(-3)` at count 1 throws untouched;
`release()` at count 0 throws untouched; `release(5)` at count 1 throws
untouched. -/
theorem C9_atomic_validation_witness :
    (bar1 = bar1 ∧ JsErr.invalidArg = JsErr.invalidArg) ∧
    ((⟨0, [], 0, []⟩ : BState).value ≤ 0 ∧
      execProg 2 (Prog.release none Prog.nil) ⟨0, [], 0, []⟩ =
        (⟨0, [], 0, []⟩, some JsErr.notSet)) ∧
    (0 < (bar1).value ∧ releaseGuard (bar1).value 5 = false ∧
      execProg 2 (Prog.release (some 5) Prog.nil) bar1 =
        (bar1, some JsErr.invalidArg)) :=
  ⟨(C9_atomic_validation 1 5 (some (-3)) bar1).1 bar1 JsErr.invalidArg
      (by decide),
   ⟨by decide, (C9_atomic_validation 1 5 none ⟨0, [], 0, []⟩).2.1 (by decide)⟩,
   ⟨by decide, by decide,
    (C9_atomic_validation 1 5 (some 5) bar1).2.2 (by decide) (by decide)⟩⟩

end BarrierJs
